import Mathlib

/-!
# Verification of the musiccut windowed matching core

A shallow embedding, in Lean 4, of the matching/stitching core of the
`musiccut` application (Rust sources under `src-tauri/src`), together with
theorems settling the specification claims about it.

Conventions of the embedding:

* Rust `f64` values that the algorithms treat as exact quantities
  (durations, hop/window sizes, confidences) are modelled as rationals `ℚ`;
  the spec's arithmetic statements are explicitly about exact arithmetic.
* Rust `u8` bytes are modelled as `Fin 256`; the little-endian bit pattern
  of an `i32` is modelled as the corresponding `Nat < 2^32`.  `i32` XOR is
  bitwise on the two's-complement pattern, so it coincides with `Nat.xor`
  of the patterns, and `i32::count_ones` is the population count of the
  pattern.
* The `u32` accumulators `total_bits`/`matching_bits` of
  `compare_fingerprints` are modelled as naturals reduced `% 2^32` at
  every addition, the wrapping arithmetic of a release build; a debug
  build would panic at the same additions.  The wrap is reachable: it
  occurs once the zipped input holds `2^27` word pairs (`2^29` bytes).
* Fallible operations return `Except AppErrorKind`; external collaborators
  (ffmpeg, fpcalc, the SQLite store) are parameters of the model.
-/

namespace Musiccut

/-- A byte, the element type of Rust `&[u8]` fingerprint buffers. -/
abbrev Byte := Fin 256

/-- Population count of a natural number (number of set bits); models
`i32::count_ones` on the underlying 32-bit pattern. -/
def popcount (n : Nat) : Nat :=
  if h : n = 0 then 0 else popcount (n / 2) + n % 2
decreasing_by exact Nat.div_lt_self (Nat.pos_of_ne_zero h) (by decide)

/-- The value of four bytes read as a little-endian 32-bit word; models the
bit pattern produced by `i32::from_le_bytes([b0, b1, b2, b3])`. -/
def leWord (b0 b1 b2 b3 : Byte) : Nat :=
  b0.val + 256 * b1.val + 65536 * b2.val + 16777216 * b3.val

/-- Decode a byte buffer into its sequence of little-endian 32-bit words,
ignoring trailing bytes that do not form a complete word; models
`fp.chunks_exact(4).map(|chunk| i32::from_le_bytes(...))` in
`compare_fingerprints` (src/audio/fingerprint.rs, lines 68-74). -/
def i32leWords : List Byte → List Nat
  | b0 :: b1 :: b2 :: b3 :: rest => leWord b0 b1 b2 b3 :: i32leWords rest
  | _ => []

/-- `compare_fingerprints` (src/audio/fingerprint.rs, lines 62-92): Hamming
similarity of two fingerprint byte buffers.  The loop accumulating
`total_bits += 32` and `matching_bits += 32 - diff_bits` over the zipped
word iterators is embedded as a left fold over the zipped word lists.  The
accumulators are `u32`, so every addition is taken `% 2^32` — the wrapping
semantics of a release build (a debug build panics at the same additions,
first reached at `2^27` word pairs). -/
def compare_fingerprints (fp1 fp2 : List Byte) : ℚ :=
  if fp1.isEmpty || fp2.isEmpty then 0
  else
    let pairs := (i32leWords fp1).zip (i32leWords fp2)
    let acc : ℕ × ℕ := pairs.foldl
      (fun acc p => ((acc.1 + 32) % 2 ^ 32,
        (acc.2 + (32 - popcount (p.1 ^^^ p.2))) % 2 ^ 32)) (0, 0)
    if acc.1 = 0 then 0 else (acc.2 : ℚ) / (acc.1 : ℚ)

/-- The similarity function exactly as claim C3 words it: decode both
buffers to words, let `n` be the shorter decoded length, and return
`(∑ pairs, 32 − popcount(xi XOR yi)) / (32·n)`, with the two special cases
(an empty buffer, and `n = 0`) returning `0`.  Stated with index sums and
rational subtraction, independently of the fold in the source. -/
def hammingSimilaritySpec (fp1 fp2 : List Byte) : ℚ :=
  if fp1 = [] ∨ fp2 = [] then 0
  else
    let xs := i32leWords fp1
    let ys := i32leWords fp2
    let n := min xs.length ys.length
    if n = 0 then 0
    else (∑ i ∈ Finset.range n,
        ((32 : ℚ) - popcount ((xs.getD i 0) ^^^ (ys.getD i 0)))) / (32 * n)

/-! ## Error kinds

`AppError` (src/error.rs) with each constructor reduced to its kind; the
human-readable message payloads are elided, no claim concerns them.  The
`Io` variant is rendered `IoError` here. -/

inductive AppErrorKind
  | Database
  | IoError
  | Json
  | FFmpeg
  | Fingerprint
  | VocalSeparation
  | Detection
  | Video
  | Config
  | DependencyMissing
  | Cancelled
  | NotFound
  | InvalidArgument
deriving DecidableEq, Repr

/-! ## Segments and the stitcher

Embedding of the sequential stitching loop of `match_video_segments`
(src/commands/video.rs, lines 575-651). -/

/-- `SegmentStatus` (src/utils.rs). -/
inductive SegmentStatus
  | Detected
  | Removed
deriving DecidableEq, Repr

/-- `Segment` (src/utils.rs, lines 72-81).  The `id` field, a fresh UUID
from `generate_id()`, carries no information any claim touches and is
omitted. -/
structure Segment where
  project_id : String
  music_id : Option String
  music_title : Option String
  start_time : ℚ
  end_time : ℚ
  confidence : ℚ
  status : SegmentStatus
deriving DecidableEq, Repr

/-- One entry of the per-window scan output
`(usize, String, String, f64)` — window index, music id, title,
confidence. -/
structure WindowMatch where
  window_index : ℕ
  music_id : String
  music_title : String
  confidence : ℚ
deriving DecidableEq, Repr

/-- The open-segment accumulator
`current_match : Option<(String, String, f64, f64, usize)>` of the
stitching loop: `(music_id, title, start_time, confidence,
last_window_index)` (src/commands/video.rs, line 577). -/
structure CurrentMatch where
  music_id : String
  music_title : String
  start_time : ℚ
  confidence : ℚ
  last_window_index : ℕ
deriving DecidableEq, Repr

/-- The close block the stitching loop repeats at its three close sites
(src/commands/video.rs, lines 598-610, 617-629 and 638-650): compute
`end_time = last_window_index*hop_size + window_size`, and push a segment
with end time `end_time.min(total_duration)` exactly when
`end_time - start >= min_duration`. -/
def closeCurrentMatch (project_id : String)
    (window_size hop_size min_duration total_duration : ℚ)
    (c : CurrentMatch) : Option Segment :=
  let end_time : ℚ := (c.last_window_index : ℚ) * hop_size + window_size
  if min_duration ≤ end_time - c.start_time then
    some { project_id := project_id
           music_id := some c.music_id
           music_title := some c.music_title
           start_time := c.start_time
           end_time := min end_time total_duration
           confidence := c.confidence
           status := .Detected }
  else none

/-- The stitching loop `for (window_index, music_id, music_title,
confidence) in sorted_results` (src/commands/video.rs, lines 579-634),
carrying the emitted segments and the open accumulator. -/
def stitchLoop (project_id : String)
    (window_size hop_size min_duration max_gap_duration total_duration : ℚ)
    (segments : List Segment) (current_match : Option CurrentMatch) :
    List WindowMatch → List Segment × Option CurrentMatch
  | [] => (segments, current_match)
  | m :: rest =>
    let current_time : ℚ := (m.window_index : ℚ) * hop_size
    match current_match with
    | none =>
      stitchLoop project_id window_size hop_size min_duration max_gap_duration
        total_duration segments
        (some ⟨m.music_id, m.music_title, current_time, m.confidence, m.window_index⟩)
        rest
    | some c =>
      if c.music_id = m.music_id then
        let last_end_time : ℚ := (c.last_window_index : ℚ) * hop_size + window_size
        let gap := current_time - last_end_time
        if gap ≤ max_gap_duration then
          stitchLoop project_id window_size hop_size min_duration max_gap_duration
            total_duration segments
            (some ⟨c.music_id, c.music_title, c.start_time,
                   max m.confidence c.confidence, m.window_index⟩)
            rest
        else
          stitchLoop project_id window_size hop_size min_duration max_gap_duration
            total_duration
            (segments ++
              (closeCurrentMatch project_id window_size hop_size min_duration
                total_duration c).toList)
            (some ⟨m.music_id, m.music_title, current_time, m.confidence, m.window_index⟩)
            rest
      else
        stitchLoop project_id window_size hop_size min_duration max_gap_duration
          total_duration
          (segments ++
            (closeCurrentMatch project_id window_size hop_size min_duration
              total_duration c).toList)
          (some ⟨m.music_id, m.music_title, current_time, m.confidence, m.window_index⟩)
          rest

/-- The full stitcher: run the loop from an empty segment list and no open
accumulator, then close whatever accumulator remains open with the same
close block (src/commands/video.rs, lines 575-651). -/
def stitchSegments (project_id : String)
    (window_size hop_size min_duration max_gap_duration total_duration : ℚ)
    (sorted_results : List WindowMatch) : List Segment :=
  let r := stitchLoop project_id window_size hop_size min_duration max_gap_duration
    total_duration [] none sorted_results
  match r.2 with
  | some c =>
    r.1 ++ (closeCurrentMatch project_id window_size hop_size min_duration
      total_duration c).toList
  | none => r.1

/-! ## Window planning

Embedding of the window generation of `match_video_segments`
(src/commands/video.rs, lines 479-485), in exact arithmetic. -/

/-- `total_windows = ((total_duration - window_size) / hop_size).ceil() as
usize + 1` (src/commands/video.rs, line 479); the `as usize` cast clamps a
negative ceiling to `0` as `Int.toNat` does. -/
def total_windows (total_duration window_size hop_size : ℚ) : ℕ :=
  (⌈(total_duration - window_size) / hop_size⌉).toNat + 1

/-- `window_times` (src/commands/video.rs, lines 482-485): the pairs
`(i, i * hop_size)` for `i` below `total_windows`, filtered by
`t + window_size <= total_duration`. -/
def window_times (total_duration window_size hop_size : ℚ) : List (ℕ × ℚ) :=
  ((List.range (total_windows total_duration window_size hop_size)).map
      (fun i => ((i, (i : ℚ) * hop_size) : ℕ × ℚ))).filter
    (fun p => decide (p.2 + window_size ≤ total_duration))

/-! ## The match pipeline

Embedding of the `match_video_segments` command
(src/commands/video.rs, lines 414-670).  External collaborators — ffmpeg
duration probing, the SQLite fingerprint library, per-window audio slicing
plus fpcalc extraction, and the cancellation flag shared with the
`cancel_video_matching` command — enter as fields of `MatchEnv`.  The
segments table rows of the target project are threaded explicitly as a
`List Segment` state, so the effect of `delete_segments_by_project`
(line 476) and `batch_insert_segments` (line 654) on them is visible. -/

/-- A library row `(music_id, music_title, fingerprint)` as returned by
`database::get_all_fingerprints` / `get_fingerprints_by_ids`. -/
abbrev LibraryEntry := String × String × List Byte

/-- The per-window best-library-match computation of the scan closure
(src/commands/video.rs, lines 528-536): compare the window fingerprint
against every library entry, keep those with confidence `>= min_conf`, and
take the maximum by confidence; `max_by` resolves ties to the later
element. -/
def bestMatch (min_conf : ℚ) (library : List LibraryEntry)
    (fp_data : List Byte) : Option (String × String × ℚ) :=
  ((library.map (fun e => (e.1, e.2.1, compare_fingerprints fp_data e.2.2))).filter
      (fun c => decide (min_conf ≤ c.2.2))).foldl
    (fun acc c =>
      match acc with
      | none => some c
      | some a => if c.2.2 < a.2.2 then some a else some c)
    none

/-- Environment of one `match_video_segments` call: its resolved numeric
parameters and the behaviour of its external collaborators. -/
structure MatchEnv where
  project_id : String
  /-- `min_conf`, from the argument or the config default. -/
  min_confidence : ℚ
  window_size : ℚ
  hop_size : ℚ
  /-- `min_duration`, the minimum segment duration from config. -/
  min_duration : ℚ
  max_gap_duration : ℚ
  /-- Outcome of `ffmpeg::get_audio_duration(&accompaniment_path)`. -/
  audio_duration : Except AppErrorKind ℚ
  /-- Outcome of the fingerprint-library read
  (`get_fingerprints_by_ids` / `get_all_fingerprints`). -/
  library : Except AppErrorKind (List LibraryEntry)
  /-- Value the worker for window `i` observes when it polls the
  cancellation flag at the top of the scan closure (line 511). -/
  cancel_seen : ℕ → Bool
  /-- Combined outcome of `ffmpeg::extract_audio_segment` plus
  `fingerprint::extract_fingerprint_from_file` for window `i`; `none` when
  either external call fails, which makes the window contribute no
  result. -/
  extract_window_fp : ℕ → Option (List Byte)
  /-- Value of the cancellation flag at the post-scan check (line 563). -/
  cancel_at_end : Bool

/-- The body of the parallel scan closure for one window
(src/commands/video.rs, lines 509-557): poll the cancellation flag, slice
and fingerprint the window via the collaborators, then search the library;
temp-file cleanup and progress events have no bearing on the returned
value. -/
def scanWindow (env : MatchEnv) (library : List LibraryEntry)
    (window_index : ℕ) : Option (String × String × ℚ) :=
  if env.cancel_seen window_index then none
  else
    match env.extract_window_fp window_index with
    | none => none
    | some fp_data => bestMatch env.min_confidence library fp_data

/-- `match_video_segments` (src/commands/video.rs, lines 414-670) on an
environment and the project's current segment rows.  Returns the command
outcome together with the project's segment rows afterwards. -/
def match_video_segments (env : MatchEnv) (db : List Segment) :
    Except AppErrorKind (List Segment) × List Segment :=
  if env.hop_size ≤ 0 then (.error .Config, db)
  else if env.window_size ≤ 0 then (.error .Config, db)
  else
    match env.audio_duration with
    | .error e => (.error e, db)
    | .ok total_duration =>
      if total_duration < env.window_size then (.error .InvalidArgument, db)
      else
        match env.library with
        | .error e => (.error e, db)
        | .ok library =>
          if library.isEmpty then (.error .NotFound, db)
          else
            -- `database::delete_segments_by_project(&project_id)?` (line 476)
            let db1 : List Segment := []
            let wts := window_times total_duration env.window_size env.hop_size
            let window_results := wts.filterMap (fun p =>
              (scanWindow env library p.1).map
                (fun r => WindowMatch.mk p.1 r.1 r.2.1 r.2.2))
            if env.cancel_at_end then (.error .Cancelled, db1)
            else
              let sorted_results := window_results.mergeSort
                (fun a b => decide (a.window_index ≤ b.window_index))
              let segments := stitchSegments env.project_id env.window_size
                env.hop_size env.min_duration env.max_gap_duration total_duration
                sorted_results
              -- `database::batch_insert_segments(&segments)?` (line 654)
              (.ok segments, db1 ++ segments)

/-! ## The whole-file `match_fingerprint` command

Embedding of `match_fingerprint` (src/commands/fingerprint.rs,
lines 19-65). -/

/-- `MatchResult` (src/utils.rs, lines 111-117). -/
structure MatchResult where
  music_id : String
  music_title : String
  confidence : ℚ
  start_time : ℚ
  end_time : ℚ
deriving DecidableEq, Repr

/-- `match_fingerprint` (src/commands/fingerprint.rs, lines 19-65), with
the fpcalc extraction of the query audio and the library read as
collaborator outcomes.  The default minimum confidence is `0.6`; an empty
library returns `Ok(Vec::new())`; matches are filtered by
`confidence >= min_conf` and sorted by descending confidence. -/
def match_fingerprint (query : Except AppErrorKind (List Byte))
    (library : Except AppErrorKind (List LibraryEntry))
    (min_confidence : Option ℚ) : Except AppErrorKind (List MatchResult) :=
  let min_conf := min_confidence.getD (3 / 5)
  match query with
  | .error e => .error e
  | .ok query_fingerprint =>
    match library with
    | .error e => .error e
    | .ok lib =>
      if lib.isEmpty then .ok []
      else
        let results := lib.filterMap (fun e =>
          let confidence := compare_fingerprints query_fingerprint e.2.2
          if min_conf ≤ confidence then
            some (MatchResult.mk e.1 e.2.1 confidence 0 0)
          else none)
        .ok (results.mergeSort (fun a b => decide (b.confidence ≤ a.confidence)))

/-! ## The detection GPU gate

Embedding of the queueing path of `detect_persons`
(src/commands/detection.rs, lines 50-84).  The `tokio::select!` race
between `DETECTION_GPU_SEMAPHORE.acquire()` and the 200 ms sleep is
modelled by a schedule: each loop iteration consumes one `SelectOutcome`
saying which select arm completed first.  The cancellation flag is a
function of the iteration counter; the `Err(_)` arm for a closed semaphore
(the static semaphore is never closed) is not modelled. -/

/-- Which arm of the `tokio::select!` completes in one iteration of the
wait loop. -/
inductive SelectOutcome
  | acquireReady
  | sleepElapsed
deriving DecidableEq, Repr

/-- Result of the gate wait loop; `stillWaiting` marks a schedule that
ends before the loop breaks (the task remains queued). -/
inductive GateWaitResult
  | acquiredPermit
  | cancelledWhileQueued
  | stillWaiting
deriving DecidableEq, Repr

/-- The poll interval of the queue wait loop:
`tokio::time::sleep(std::time::Duration::from_millis(200))`
(src/commands/detection.rs, line 75). -/
def detectPollIntervalMs : ℕ := 200

/-- The `loop \x7b tokio::select! ... \x7d` of `detect_persons`
(src/commands/detection.rs, lines 62-82): an `acquireReady` outcome breaks
with the permit; a `sleepElapsed` outcome checks the cancellation flag and
returns `Cancelled` when it is set, else loops. -/
def detectGateWaitLoop (cancel_flag : ℕ → Bool) :
    ℕ → List SelectOutcome → GateWaitResult
  | _, [] => .stillWaiting
  | _, .acquireReady :: _ => .acquiredPermit
  | k, .sleepElapsed :: rest =>
    if cancel_flag k then .cancelledWhileQueued
    else detectGateWaitLoop cancel_flag (k + 1) rest

/-- The gate acquisition of `detect_persons`
(src/commands/detection.rs, lines 50-84): an immediate `try_acquire`
success takes the permit silently; otherwise one `detection-queued` event
is emitted and the wait loop runs.  Returns the emitted events and the
wait outcome. -/
def detect_persons_gate (gate_busy : Bool) (cancel_flag : ℕ → Bool)
    (sched : List SelectOutcome) : List String × GateWaitResult :=
  if gate_busy then
    (["detection-queued"], detectGateWaitLoop cancel_flag 0 sched)
  else
    ([], .acquiredPermit)

/-! ## Lemmas about `popcount` and word decoding -/

theorem popcount_zero : popcount 0 = 0 := by
  rw [popcount]
  simp

theorem popcount_of_ne_zero {n : Nat} (h : n ≠ 0) :
    popcount n = popcount (n / 2) + n % 2 := by
  rw [popcount]
  simp [h]

/-- A number below `2^k` has at most `k` set bits. -/
theorem popcount_le_of_lt_two_pow : ∀ (k n : Nat), n < 2 ^ k → popcount n ≤ k := by
  intro k
  induction k with
  | zero =>
    intro n hn
    interval_cases n
    simp [popcount_zero]
  | succ k ih =>
    intro n hn
    rcases Nat.eq_zero_or_pos n with h0 | h0
    · subst h0; simp [popcount_zero]
    · rw [popcount_of_ne_zero (Nat.pos_iff_ne_zero.mp h0)]
      have hdiv : n / 2 < 2 ^ k := by
        have : n < 2 * 2 ^ k := by
          calc n < 2 ^ (k + 1) := hn
          _ = 2 * 2 ^ k := by ring
        exact Nat.div_lt_of_lt_mul this
      have hmod : n % 2 ≤ 1 := Nat.lt_succ_iff.mp (Nat.mod_lt n (by norm_num))
      have := ih (n / 2) hdiv
      omega

theorem leWord_lt (b0 b1 b2 b3 : Byte) : leWord b0 b1 b2 b3 < 2 ^ 32 := by
  have h0 := b0.isLt
  have h1 := b1.isLt
  have h2 := b2.isLt
  have h3 := b3.isLt
  unfold leWord
  omega

theorem mem_i32leWords_lt : ∀ (fp : List Byte), ∀ w ∈ i32leWords fp, w < 2 ^ 32
  | b0 :: b1 :: b2 :: b3 :: rest => by
    intro w hw
    rw [i32leWords] at hw
    rcases List.mem_cons.mp hw with h | h
    · subst h; exact leWord_lt b0 b1 b2 b3
    · exact mem_i32leWords_lt rest w h
  | [] => by intro w hw; simp [i32leWords] at hw
  | [_] => by intro w hw; simp [i32leWords] at hw
  | [_, _] => by intro w hw; simp [i32leWords] at hw
  | [_, _, _] => by intro w hw; simp [i32leWords] at hw

/-- The set-bit count of a XOR of two 32-bit words is at most 32. -/
theorem popcount_xor_le_32 {x y : Nat} (hx : x < 2 ^ 32) (hy : y < 2 ^ 32) :
    popcount (x ^^^ y) ≤ 32 :=
  popcount_le_of_lt_two_pow 32 _ (Nat.xor_lt_two_pow hx hy)

/-! ## Lemmas about the similarity fold -/

/-- As long as neither accumulator can reach `2^32`, the wrapping fold of
`compare_fingerprints` computes the unwrapped values: `total_bits` is
`32·length` and `matching_bits` the plain sum of per-pair matching-bit
counts. -/
theorem wrapFold_closed (l : List (Nat × Nat)) :
    ∀ a b : Nat,
      a + 32 * l.length < 2 ^ 32 →
      b + (l.map (fun p => 32 - popcount (p.1 ^^^ p.2))).sum < 2 ^ 32 →
      (l.foldl (fun acc p => ((acc.1 + 32) % 2 ^ 32,
          (acc.2 + (32 - popcount (p.1 ^^^ p.2))) % 2 ^ 32)) (a, b))
        = (a + 32 * l.length,
           b + (l.map (fun p => 32 - popcount (p.1 ^^^ p.2))).sum) := by
  induction l with
  | nil =>
    intro a b _ _
    simp
  | cons x xs ih =>
    intro a b ha hb
    simp only [List.foldl_cons, List.map_cons, List.sum_cons, List.length_cons]
    simp only [List.map_cons, List.sum_cons, List.length_cons] at ha hb
    rw [Nat.mod_eq_of_lt (by omega), Nat.mod_eq_of_lt (by omega)]
    rw [ih (a + 32) (b + (32 - popcount (x.1 ^^^ x.2))) (by omega) (by omega)]
    have h1 : a + 32 + 32 * xs.length = a + 32 * (xs.length + 1) := by ring
    have h2 : b + (32 - popcount (x.1 ^^^ x.2)) +
          (xs.map (fun p => 32 - popcount (p.1 ^^^ p.2))).sum
        = b + ((32 - popcount (x.1 ^^^ x.2)) +
            (xs.map (fun p => 32 - popcount (p.1 ^^^ p.2))).sum) := by ring
    rw [h1, h2]

/-- Closed form of the wrapping fold of `compare_fingerprints` over a
constant pair list, wrap included. -/
theorem wrapFold_replicate (x : Nat × Nat) :
    ∀ (k a b : Nat), a < 2 ^ 32 → b < 2 ^ 32 →
      ((List.replicate k x).foldl (fun acc p => ((acc.1 + 32) % 2 ^ 32,
          (acc.2 + (32 - popcount (p.1 ^^^ p.2))) % 2 ^ 32)) (a, b))
        = ((a + 32 * k) % 2 ^ 32,
           (b + (32 - popcount (x.1 ^^^ x.2)) * k) % 2 ^ 32) := by
  intro k
  induction k with
  | zero =>
    intro a b ha hb
    simp only [List.replicate_zero, List.foldl_nil, Nat.mul_zero, Nat.add_zero,
      Nat.mod_eq_of_lt ha, Nat.mod_eq_of_lt hb]
  | succ k ih =>
    intro a b ha hb
    rw [List.replicate_succ, List.foldl_cons]
    rw [ih ((a + 32) % 2 ^ 32) ((b + (32 - popcount (x.1 ^^^ x.2))) % 2 ^ 32)
      (Nat.mod_lt _ (by norm_num)) (Nat.mod_lt _ (by norm_num))]
    rw [Nat.mod_add_mod, Nat.mod_add_mod]
    have h1 : a + 32 + 32 * k = a + 32 * (k + 1) := by ring
    have h2 : b + (32 - popcount (x.1 ^^^ x.2)) +
          (32 - popcount (x.1 ^^^ x.2)) * k
        = b + (32 - popcount (x.1 ^^^ x.2)) * (k + 1) := by ring
    rw [h1, h2]

/-- Decoding the flattening of `n` copies of one 4-byte block yields `n`
copies of its little-endian word. -/
theorem i32leWords_flatten_replicate (a b c d : Byte) :
    ∀ n : ℕ, i32leWords (List.replicate n [a, b, c, d]).flatten
      = List.replicate n (leWord a b c d) := by
  intro n
  induction n with
  | zero => simp [i32leWords]
  | succ n ih =>
    rw [List.replicate_succ, List.flatten_cons]
    simp only [List.cons_append, List.nil_append]
    rw [i32leWords, ih, List.replicate_succ]

/-- Zipping two equally long replicated lists replicates the pair. -/
theorem zip_replicate_same {α β : Type*} (a : α) (b : β) :
    ∀ n : ℕ, (List.replicate n a).zip (List.replicate n b)
      = List.replicate n (a, b) := by
  intro n
  induction n with
  | zero => rfl
  | succ n ih => simp [List.replicate_succ, ih]

/-- The flattening of at least one 4-byte block is non-empty. -/
theorem flatten_replicate_isEmpty_false (a b c d : Byte) (n : ℕ)
    (hn : 0 < n) :
    ((List.replicate n [a, b, c, d]).flatten).isEmpty = false := by
  match n, hn with
  | n + 1, _ =>
    rw [List.replicate_succ, List.flatten_cons]
    simp

/-- A sum over the zip of two lists as a sum over positions below the
shorter length. -/
theorem sum_zip_map_eq_sum_range {α β γ : Type*} [AddCommMonoid γ]
    (g : α → β → γ) (d1 : α) (d2 : β) :
    ∀ (xs : List α) (ys : List β),
      ((xs.zip ys).map (fun p => g p.1 p.2)).sum
        = ∑ i ∈ Finset.range (min xs.length ys.length),
            g (xs.getD i d1) (ys.getD i d2) := by
  intro xs
  induction xs with
  | nil => intro ys; simp
  | cons x xs ih =>
    intro ys
    cases ys with
    | nil => simp
    | cons y ys =>
      simp only [List.zip_cons_cons, List.map_cons, List.sum_cons,
        List.length_cons, Nat.succ_min_succ]
      rw [Finset.sum_range_succ']
      simp only [List.getD_cons_succ, List.getD_cons_zero]
      rw [ih ys]
      exact add_comm _ _

/-- Auxiliary: the matching-bit numerator of `compare_fingerprints`, cast
to `ℚ`, equals the index-sum the spec words it as. -/
theorem similarity_numerator_cast (fp1 fp2 : List Byte) :
    ((((i32leWords fp1).zip (i32leWords fp2)).map
        (fun p => 32 - popcount (p.1 ^^^ p.2))).sum : ℚ)
      = ∑ i ∈ Finset.range
          (min (i32leWords fp1).length (i32leWords fp2).length),
          ((32 : ℚ) - popcount (((i32leWords fp1).getD i 0) ^^^
            ((i32leWords fp2).getD i 0))) := by
  rw [Nat.cast_list_sum, List.map_map]
  have hcong : (((i32leWords fp1).zip (i32leWords fp2)).map
      ((Nat.cast : ℕ → ℚ) ∘ fun p => 32 - popcount (p.1 ^^^ p.2)))
      = (((i32leWords fp1).zip (i32leWords fp2)).map
        (fun p => (32 : ℚ) - popcount (p.1 ^^^ p.2))) := by
    apply List.map_congr_left
    intro p hp
    have hmem := List.of_mem_zip hp
    have h1 : p.1 < 2 ^ 32 := mem_i32leWords_lt fp1 p.1 hmem.1
    have h2 : p.2 < 2 ^ 32 := mem_i32leWords_lt fp2 p.2 hmem.2
    have hle : popcount (p.1 ^^^ p.2) ≤ 32 := popcount_xor_le_32 h1 h2
    simp [Nat.cast_sub hle]
  rw [hcong]
  exact sum_zip_map_eq_sum_range (fun a b => (32 : ℚ) - popcount (a ^^^ b))
    0 0 (i32leWords fp1) (i32leWords fp2)

/-- The per-pair matching-bit counts sum to at most 32 bits per pair. -/
theorem similarity_sum_le (l : List (Nat × Nat)) :
    (l.map (fun p => 32 - popcount (p.1 ^^^ p.2))).sum ≤ 32 * l.length := by
  calc (l.map (fun p => 32 - popcount (p.1 ^^^ p.2))).sum
      ≤ (l.map (fun p => 32 - popcount (p.1 ^^^ p.2))).length • 32 :=
        List.sum_le_card_nsmul _ 32 (by
          intro x hx
          rcases List.mem_map.mp hx with ⟨p, _, hp⟩
          subst hp
          exact Nat.sub_le 32 _)
    _ = 32 * l.length := by
        rw [List.length_map, smul_eq_mul, Nat.mul_comm]

/-- Counterexample to claim C3 as stated: at `2^27` all-zero word pairs
(buffers of `2^29` zero bytes, inside the claim's every-pair domain) the
`u32` accumulator `total_bits` wraps to `0`, so `compare_fingerprints`
returns `0.0` while the claimed formula gives `1`. -/
theorem c3_counterexample :
    compare_fingerprints
        (List.replicate (2 ^ 27) ([0, 0, 0, 0] : List Byte)).flatten
        (List.replicate (2 ^ 27) ([0, 0, 0, 0] : List Byte)).flatten = 0 ∧
      hammingSimilaritySpec
        (List.replicate (2 ^ 27) ([0, 0, 0, 0] : List Byte)).flatten
        (List.replicate (2 ^ 27) ([0, 0, 0, 0] : List Byte)).flatten = 1 ∧
      (0 : ℚ) ≠ 1 := by
  have hw0 : leWord 0 0 0 0 = 0 := by simp [leWord]
  have hwords :
      i32leWords (List.replicate (2 ^ 27) ([0, 0, 0, 0] : List Byte)).flatten
        = List.replicate (2 ^ 27) 0 := by
    rw [i32leWords_flatten_replicate, hw0]
  have hacc : (List.replicate (2 ^ 27) ((0 : ℕ), (0 : ℕ))).foldl
      (fun acc p => ((acc.1 + 32) % 2 ^ 32,
        (acc.2 + (32 - popcount (p.1 ^^^ p.2))) % 2 ^ 32)) (0, 0)
      = (0, 0) := by
    rw [wrapFold_replicate (0, 0) (2 ^ 27) 0 0 (by norm_num) (by norm_num)]
    have h1 : ((0 : ℕ) + 32 * 2 ^ 27) % 2 ^ 32 = 0 := by norm_num
    have h2 : ((0 : ℕ) + (32 - popcount (((0 : ℕ), (0 : ℕ)).1 ^^^
        ((0 : ℕ), (0 : ℕ)).2)) * 2 ^ 27) % 2 ^ 32 = 0 := by
      simp only [Nat.xor_self, popcount_zero, Nat.sub_zero, Nat.zero_add]
      norm_num
    rw [h1, h2]
  refine ⟨?_, ?_, by norm_num⟩
  · unfold compare_fingerprints
    rw [flatten_replicate_isEmpty_false 0 0 0 0 _ (by norm_num)]
    simp only [Bool.or_self, Bool.false_eq_true, if_false]
    rw [hwords, zip_replicate_same, hacc]
    norm_num
  · have hne :
        (List.replicate (2 ^ 27) ([0, 0, 0, 0] : List Byte)).flatten ≠ [] := by
      intro h
      have hf := flatten_replicate_isEmpty_false (0 : Byte) 0 0 0 (2 ^ 27)
        (by norm_num)
      rw [h] at hf
      simp at hf
    simp only [hammingSimilaritySpec]
    rw [if_neg (by push_neg; exact ⟨hne, hne⟩)]
    rw [hwords]
    simp only [List.length_replicate, min_self]
    rw [if_neg (by norm_num)]
    have hterm : ∀ i ∈ Finset.range (2 ^ 27),
        ((32 : ℚ) - popcount ((List.replicate (2 ^ 27) (0 : ℕ)).getD i 0 ^^^
            (List.replicate (2 ^ 27) (0 : ℕ)).getD i 0)) = 32 := by
      intro i hi
      have hilt : i < 2 ^ 27 := Finset.mem_range.mp hi
      have hgd : (List.replicate (2 ^ 27) (0 : ℕ)).getD i 0 = 0 := by
        rw [List.getD_eq_getElem?_getD, List.getElem?_replicate_of_lt hilt]
        rfl
      rw [hgd, Nat.xor_self, popcount_zero]
      norm_num
    rw [Finset.sum_congr rfl hterm]
    simp only [Finset.sum_const, Finset.card_range, nsmul_eq_mul]
    norm_num

/-- Claim C3 as amended: whenever the common decoded length `n` stays
below `2^27` word pairs — so the `u32` accumulators cannot wrap —
`compare_fingerprints` returns `0.0` when either buffer is empty,
otherwise `(∑ pairs, 32 − popcount(xi XOR yi)) / (32·n)` over the first
`n` little-endian decoded pairs, and `0.0` when `n = 0`. -/
theorem c3_compare_fingerprints_matches_spec (fp1 fp2 : List Byte)
    (hlen : min (i32leWords fp1).length (i32leWords fp2).length < 2 ^ 27) :
    compare_fingerprints fp1 fp2 = hammingSimilaritySpec fp1 fp2 := by
  by_cases h1 : fp1 = []
  · simp [compare_fingerprints, hammingSimilaritySpec, h1]
  by_cases h2 : fp2 = []
  · simp [compare_fingerprints, hammingSimilaritySpec, h1, h2]
  simp only [compare_fingerprints, hammingSimilaritySpec,
    List.isEmpty_iff, h1, h2, or_self, if_false, Bool.or_eq_true,
    decide_eq_true_eq, false_or, or_false]
  have hsum := similarity_sum_le ((i32leWords fp1).zip (i32leWords fp2))
  have hlen' : ((i32leWords fp1).zip (i32leWords fp2)).length < 2 ^ 27 := by
    rw [List.length_zip]
    exact hlen
  rw [wrapFold_closed _ 0 0 (by omega) (by omega)]
  simp only [List.length_zip, Nat.zero_add]
  by_cases hn : min (i32leWords fp1).length (i32leWords fp2).length = 0
  · simp [hn]
  · rw [if_neg (by omega), if_neg hn]
    rw [similarity_numerator_cast]
    congr 1
    push_cast
    ring

/-- Witness for the amended C3 at a one-word pair of equal buffers. -/
theorem c3_compare_fingerprints_matches_spec_witness :
    min (i32leWords [0, 0, 0, 0]).length (i32leWords [0, 0, 0, 0]).length
        < 2 ^ 27 ∧
      compare_fingerprints [0, 0, 0, 0] [0, 0, 0, 0]
        = hammingSimilaritySpec [0, 0, 0, 0] [0, 0, 0, 0] :=
  ⟨by norm_num [i32leWords],
    c3_compare_fingerprints_matches_spec [0, 0, 0, 0] [0, 0, 0, 0]
      (by norm_num [i32leWords])⟩

/-- Counterexample to claim C9 as stated: at `2^27 + 1` word pairs of
`0` against `1` (each pair matching 31 of 32 bits), the `u32`
`total_bits` wraps to `32` while `matching_bits = 31·(2^27+1)` does not
wrap, so `compare_fingerprints` returns `4160749599/32`, far above `1`. -/
theorem c9_counterexample :
    1 < compare_fingerprints
        (List.replicate (2 ^ 27 + 1) ([0, 0, 0, 0] : List Byte)).flatten
        (List.replicate (2 ^ 27 + 1) ([1, 0, 0, 0] : List Byte)).flatten ∧
      ¬ (0 ≤ compare_fingerprints
            (List.replicate (2 ^ 27 + 1) ([0, 0, 0, 0] : List Byte)).flatten
            (List.replicate (2 ^ 27 + 1) ([1, 0, 0, 0] : List Byte)).flatten ∧
          compare_fingerprints
            (List.replicate (2 ^ 27 + 1) ([0, 0, 0, 0] : List Byte)).flatten
            (List.replicate (2 ^ 27 + 1) ([1, 0, 0, 0] : List Byte)).flatten
            ≤ 1) := by
  have hw0 : leWord 0 0 0 0 = 0 := by simp [leWord]
  have hw1 : leWord 1 0 0 0 = 1 := by simp [leWord]
  have hpop1 : popcount 1 = 1 := by
    rw [popcount_of_ne_zero (by norm_num)]
    norm_num [popcount_zero]
  have hacc : (List.replicate (2 ^ 27 + 1) ((0 : ℕ), (1 : ℕ))).foldl
      (fun acc p => ((acc.1 + 32) % 2 ^ 32,
        (acc.2 + (32 - popcount (p.1 ^^^ p.2))) % 2 ^ 32)) (0, 0)
      = (32, 4160749599) := by
    rw [wrapFold_replicate (0, 1) (2 ^ 27 + 1) 0 0 (by norm_num) (by norm_num)]
    have h1 : ((0 : ℕ) + 32 * (2 ^ 27 + 1)) % 2 ^ 32 = 32 := by norm_num
    have h2 : ((0 : ℕ) + (32 - popcount (((0 : ℕ), (1 : ℕ)).1 ^^^
        ((0 : ℕ), (1 : ℕ)).2)) * (2 ^ 27 + 1)) % 2 ^ 32 = 4160749599 := by
      have hx : ((0 : ℕ), (1 : ℕ)).1 ^^^ ((0 : ℕ), (1 : ℕ)).2 = 1 :=
        Nat.zero_xor 1
      rw [hx, hpop1]
      norm_num
    rw [h1, h2]
  have hcmp : compare_fingerprints
      (List.replicate (2 ^ 27 + 1) ([0, 0, 0, 0] : List Byte)).flatten
      (List.replicate (2 ^ 27 + 1) ([1, 0, 0, 0] : List Byte)).flatten
      = (4160749599 : ℚ) / 32 := by
    unfold compare_fingerprints
    rw [flatten_replicate_isEmpty_false 0 0 0 0 _ (by norm_num),
      flatten_replicate_isEmpty_false 1 0 0 0 _ (by norm_num)]
    simp only [Bool.or_self, Bool.false_eq_true, if_false]
    rw [i32leWords_flatten_replicate, i32leWords_flatten_replicate, hw0, hw1,
      zip_replicate_same, hacc]
    norm_num
  rw [hcmp]
  constructor
  · norm_num
  · rintro ⟨-, hle⟩
    norm_num at hle

/-- Claim C9 as amended: whenever the common decoded length stays below
`2^27` word pairs — so the `u32` accumulators cannot wrap — the
similarity returned by `compare_fingerprints` lies in `[0, 1]`, the
matching-bit count never exceeding the total-bit count. -/
theorem c9_compare_fingerprints_in_unit_interval (fp1 fp2 : List Byte)
    (hlen : min (i32leWords fp1).length (i32leWords fp2).length < 2 ^ 27) :
    0 ≤ compare_fingerprints fp1 fp2 ∧ compare_fingerprints fp1 fp2 ≤ 1 := by
  unfold compare_fingerprints
  by_cases hemp : fp1.isEmpty || fp2.isEmpty
  · simp [hemp]
  simp only [hemp, if_false, Bool.false_eq_true]
  have hsum := similarity_sum_le ((i32leWords fp1).zip (i32leWords fp2))
  have hlen' : ((i32leWords fp1).zip (i32leWords fp2)).length < 2 ^ 27 := by
    rw [List.length_zip]
    exact hlen
  rw [wrapFold_closed _ 0 0 (by omega) (by omega)]
  simp only [Nat.zero_add]
  by_cases hz : 32 * ((i32leWords fp1).zip (i32leWords fp2)).length = 0
  · rw [if_pos hz]
    norm_num
  · rw [if_neg hz]
    have hposden : (0 : ℚ)
        < (32 * ((i32leWords fp1).zip (i32leWords fp2)).length : ℕ) := by
      exact_mod_cast Nat.pos_of_ne_zero hz
    constructor
    · apply div_nonneg
      · exact_mod_cast Nat.zero_le _
      · exact le_of_lt hposden
    · rw [div_le_one hposden]
      exact_mod_cast hsum

/-- Witness for the amended C9 at a one-word pair of equal buffers. -/
theorem c9_compare_fingerprints_in_unit_interval_witness :
    min (i32leWords [0, 0, 0, 0]).length (i32leWords [0, 0, 0, 0]).length
        < 2 ^ 27 ∧
      0 ≤ compare_fingerprints [0, 0, 0, 0] [0, 0, 0, 0] ∧
      compare_fingerprints [0, 0, 0, 0] [0, 0, 0, 0] ≤ 1 :=
  ⟨by norm_num [i32leWords],
    c9_compare_fingerprints_in_unit_interval [0, 0, 0, 0] [0, 0, 0, 0]
      (by norm_num [i32leWords])⟩

/-! ## The window planner (claim C4) -/

/-- In exact arithmetic, the window filter `i*hop_size + window_size ≤
total_duration` holds exactly when the index is at most the floor of
`(total_duration - window_size) / hop_size`. -/
theorem window_pred_iff (total_duration window_size hop_size : ℚ)
    (hh : 0 < hop_size) (i : ℕ) :
    ((i : ℚ) * hop_size + window_size ≤ total_duration)
      ↔ (i : ℤ) ≤ ⌊(total_duration - window_size) / hop_size⌋ := by
  rw [Int.le_floor]
  push_cast
  rw [le_div_iff₀ hh]
  constructor <;> intro H <;> linarith

/-- Filtering `range n` by `i < m` yields `range m` when `m ≤ n`. -/
theorem range_filter_lt (m n : ℕ) (h : m ≤ n) :
    (List.range n).filter (fun i => decide (i < m)) = List.range m := by
  induction n with
  | zero =>
    have hm : m = 0 := Nat.le_zero.mp h
    subst hm
    simp
  | succ n ih =>
    rw [List.range_succ, List.filter_append]
    by_cases hm : m ≤ n
    · rw [ih hm]
      have hnm : ¬(n < m) := by omega
      simp [hnm]
    · have hm' : m = n + 1 := by omega
      subst hm'
      have hself : (List.range n).filter (fun i => decide (i < n + 1))
          = List.range n := by
        apply List.filter_eq_self.mpr
        intro a ha
        have := List.mem_range.mp ha
        simp
        omega
      rw [hself]
      simp [List.range_succ]

/-- Claim C4: for `total_duration ≥ window_size`, `window_size > 0` and
`hop_size > 0`, the window list is exactly the pairs `(i, i*hop_size)` for
`i = 0, 1, …` with `i*hop_size + window_size ≤ total_duration`, ascending
from index 0, and in exact arithmetic its length is
`floor((total_duration - window_size) / hop_size) + 1`. -/
theorem c4_window_times_exact (total_duration window_size hop_size : ℚ)
    (_hw : 0 < window_size) (hh : 0 < hop_size)
    (hD : window_size ≤ total_duration) :
    window_times total_duration window_size hop_size
        = (List.range ((⌊(total_duration - window_size) / hop_size⌋).toNat + 1)).map
            (fun i => ((i, (i : ℚ) * hop_size) : ℕ × ℚ))
      ∧ (window_times total_duration window_size hop_size).length
          = (⌊(total_duration - window_size) / hop_size⌋).toNat + 1
      ∧ ∀ i : ℕ, (((i, (i : ℚ) * hop_size) : ℕ × ℚ)
            ∈ window_times total_duration window_size hop_size
          ↔ (i : ℚ) * hop_size + window_size ≤ total_duration) := by
  have hfl : 0 ≤ ⌊(total_duration - window_size) / hop_size⌋ :=
    Int.floor_nonneg.mpr (div_nonneg (by linarith) (le_of_lt hh))
  have hpred : ∀ i : ℕ,
      (decide ((i : ℚ) * hop_size + window_size ≤ total_duration))
        = (decide (i < (⌊(total_duration - window_size) / hop_size⌋).toNat + 1)) := by
    intro i
    apply decide_eq_decide.mpr
    rw [window_pred_iff total_duration window_size hop_size hh i]
    omega
  have hcount : (⌊(total_duration - window_size) / hop_size⌋).toNat + 1
      ≤ total_windows total_duration window_size hop_size := by
    unfold total_windows
    have := Int.floor_le_ceil ((total_duration - window_size) / hop_size)
    omega
  have hmain : window_times total_duration window_size hop_size
      = (List.range ((⌊(total_duration - window_size) / hop_size⌋).toNat + 1)).map
          (fun i => ((i, (i : ℚ) * hop_size) : ℕ × ℚ)) := by
    unfold window_times
    rw [List.filter_map]
    have hcomp : ((fun p : ℕ × ℚ => decide (p.2 + window_size ≤ total_duration))
        ∘ (fun i : ℕ => ((i, (i : ℚ) * hop_size) : ℕ × ℚ)))
        = fun i : ℕ =>
            decide (i < (⌊(total_duration - window_size) / hop_size⌋).toNat + 1) := by
      funext i
      simp only [Function.comp_apply]
      exact hpred i
    rw [hcomp, range_filter_lt _ _ hcount]
  refine ⟨hmain, ?_, ?_⟩
  · rw [hmain, List.length_map, List.length_range]
  · intro i
    rw [hmain, List.mem_map]
    constructor
    · rintro ⟨j, hj, hfj⟩
      have hji : j = i := congrArg Prod.fst hfj
      subst hji
      have hjlt := List.mem_range.mp hj
      have := decide_eq_decide.mp (hpred j)
      exact this.mpr hjlt
    · intro hle
      refine ⟨i, List.mem_range.mpr ?_, rfl⟩
      exact (decide_eq_decide.mp (hpred i)).mp hle

/-- Witness for C4 at the spec's own example `total_duration = 100`,
`window_size = 15`, `hop_size = 5`: 18 windows, the first at time 0. -/
theorem c4_window_times_exact_witness :
    (0 : ℚ) < 15 ∧ (0 : ℚ) < 5 ∧ (15 : ℚ) ≤ 100 ∧
      (window_times 100 15 5).length = (⌊((100 : ℚ) - 15) / 5⌋).toNat + 1 :=
  ⟨by norm_num, by norm_num, by norm_num,
    (c4_window_times_exact 100 15 5 (by norm_num) (by norm_num)
      (by norm_num)).2.1⟩

/-! ## The segment stitcher (claims C1 and C5) -/

/-- Claim C1: when the stitcher closes an open segment, the emitted
segment's end time is `last_window_index*hop_size + window_size` clamped
to `total_duration`, and — for windows produced by the planner, whose end
never exceeds `total_duration` — the segment is emitted exactly when this
clamped end minus the start is at least `min_duration`; in particular a
single surviving window with `window_size < min_duration` produces zero
segments. -/
theorem c1_close_rule (project_id : String)
    (window_size hop_size min_duration max_gap_duration total_duration : ℚ) :
    (∀ c : CurrentMatch,
      (c.last_window_index : ℚ) * hop_size + window_size ≤ total_duration →
      closeCurrentMatch project_id window_size hop_size min_duration
          total_duration c
        = if min_duration ≤
              min ((c.last_window_index : ℚ) * hop_size + window_size)
                total_duration - c.start_time
          then some
            { project_id := project_id
              music_id := some c.music_id
              music_title := some c.music_title
              start_time := c.start_time
              end_time := min ((c.last_window_index : ℚ) * hop_size + window_size)
                total_duration
              confidence := c.confidence
              status := .Detected }
          else none)
    ∧ (window_size < min_duration →
        ∀ m : WindowMatch,
          stitchSegments project_id window_size hop_size min_duration
            max_gap_duration total_duration [m] = []) := by
  constructor
  · intro c hbound
    simp only [closeCurrentMatch]
    rw [min_eq_left hbound]
  · intro hshort m
    simp only [stitchSegments, stitchLoop, closeCurrentMatch]
    rw [if_neg (by
      have harith : ((m.window_index : ℚ) * hop_size + window_size
          - (m.window_index : ℚ) * hop_size) = window_size := by ring
      rw [harith]
      linarith)]
    simp

/-- Witness for C1: with `window_size = 1 < 2 = min_duration`, the single
window match at index 0 stitches to zero segments. -/
theorem c1_close_rule_witness :
    (1 : ℚ) < 2 ∧
      stitchSegments "p" 1 1 2 10 60 [⟨0, "a", "Song A", 1⟩] = [] :=
  ⟨by norm_num,
    (c1_close_rule "p" 1 1 2 10 60).2 (by norm_num) ⟨0, "a", "Song A", 1⟩⟩

/-- Claim C5: at a match with the open segment's own track id the segment
is extended — `last_window_index` updated and the confidence replaced by
the max of the running and the new confidence — exactly when
`gap = window_index*hop_size − (last_window_index*hop_size + window_size)`
is at most `max_gap_duration` (negative gaps included), and otherwise it
is closed and a new one opened; at a match with a different track id the
open segment is always closed and a new one opened, regardless of the
gap. -/
theorem c5_stitch_step (project_id : String)
    (window_size hop_size min_duration max_gap_duration total_duration : ℚ)
    (segments : List Segment) (c : CurrentMatch) (m : WindowMatch)
    (rest : List WindowMatch) :
    (c.music_id = m.music_id →
      ((m.window_index : ℚ) * hop_size -
            ((c.last_window_index : ℚ) * hop_size + window_size)
          ≤ max_gap_duration →
        stitchLoop project_id window_size hop_size min_duration
            max_gap_duration total_duration segments (some c) (m :: rest)
          = stitchLoop project_id window_size hop_size min_duration
              max_gap_duration total_duration segments
              (some ⟨c.music_id, c.music_title, c.start_time,
                max m.confidence c.confidence, m.window_index⟩) rest)
      ∧ (max_gap_duration <
            (m.window_index : ℚ) * hop_size -
              ((c.last_window_index : ℚ) * hop_size + window_size) →
        stitchLoop project_id window_size hop_size min_duration
            max_gap_duration total_duration segments (some c) (m :: rest)
          = stitchLoop project_id window_size hop_size min_duration
              max_gap_duration total_duration
              (segments ++
                (closeCurrentMatch project_id window_size hop_size
                  min_duration total_duration c).toList)
              (some ⟨m.music_id, m.music_title, (m.window_index : ℚ) * hop_size,
                m.confidence, m.window_index⟩) rest))
    ∧ (c.music_id ≠ m.music_id →
        stitchLoop project_id window_size hop_size min_duration
            max_gap_duration total_duration segments (some c) (m :: rest)
          = stitchLoop project_id window_size hop_size min_duration
              max_gap_duration total_duration
              (segments ++
                (closeCurrentMatch project_id window_size hop_size
                  min_duration total_duration c).toList)
              (some ⟨m.music_id, m.music_title, (m.window_index : ℚ) * hop_size,
                m.confidence, m.window_index⟩) rest) := by
  constructor
  · intro heq
    constructor
    · intro hgap
      conv_lhs => simp only [stitchLoop]
      rw [if_pos heq, if_pos hgap]
    · intro hgap
      conv_lhs => simp only [stitchLoop]
      rw [if_pos heq, if_neg (not_le.mpr hgap)]
  · intro hne
    conv_lhs => simp only [stitchLoop]
    rw [if_neg hne]

/-- Witness for C5: an overlapping window (gap `= −10 ≤ 10`) of the same
track extends the open segment with the max of the confidences. -/
theorem c5_stitch_step_witness :
    (CurrentMatch.mk "a" "Song A" 0 (1/2) 0).music_id
        = (WindowMatch.mk 1 "a" "Song A" (3/4)).music_id ∧
      ((1 : ℚ) * 5 - ((0 : ℚ) * 5 + 15) ≤ 10) ∧
      stitchLoop "p" 15 5 5 10 60 [] (some ⟨"a", "Song A", 0, 1/2, 0⟩)
          (⟨1, "a", "Song A", 3/4⟩ :: [])
        = stitchLoop "p" 15 5 5 10 60 []
            (some ⟨"a", "Song A", 0, max (3/4) (1/2), 1⟩) [] := by
  refine ⟨rfl, by norm_num, ?_⟩
  have h := ((c5_stitch_step "p" 15 5 5 10 60 [] ⟨"a", "Song A", 0, 1/2, 0⟩
    ⟨1, "a", "Song A", 3/4⟩ []).1 rfl).1 (by push_cast; norm_num)
  exact h

/-! ## The match pipeline (claims C2, C6 and C7) -/

/-- Name for the segment list the scan-plus-stitch phase of
`match_video_segments` produces (the value of `segments` at
src/commands/video.rs line 654); a subexpression of
`match_video_segments`, named so theorems can refer to it. -/
def scanStitched (env : MatchEnv) (total_duration : ℚ)
    (library : List LibraryEntry) : List Segment :=
  stitchSegments env.project_id env.window_size env.hop_size env.min_duration
    env.max_gap_duration total_duration
    (((window_times total_duration env.window_size env.hop_size).filterMap
        (fun p => (scanWindow env library p.1).map
          (fun r => WindowMatch.mk p.1 r.1 r.2.1 r.2.2))).mergeSort
      (fun a b => decide (a.window_index ≤ b.window_index)))

/-- Helper: once the validation phase passes (positive hop and window
sizes, a successfully probed duration at least the window size, a
non-empty library), `match_video_segments` deletes the project's prior
rows and then either fails `Cancelled` — leaving the rows empty — or
succeeds with the stitched segments as the new rows. -/
theorem match_video_segments_reach_scan (env : MatchEnv) (db : List Segment)
    (hhop : 0 < env.hop_size) (hwin : 0 < env.window_size)
    (d : ℚ) (hdur : env.audio_duration = .ok d) (hdw : env.window_size ≤ d)
    (lib : List LibraryEntry) (hlib : env.library = .ok lib) (hne : lib ≠ []) :
    (env.cancel_at_end = true →
      match_video_segments env db = (.error .Cancelled, [])) ∧
    (env.cancel_at_end = false →
      match_video_segments env db
        = (.ok (scanStitched env d lib), scanStitched env d lib)) := by
  have hempty : ¬(lib.isEmpty = true) := by
    simpa [List.isEmpty_iff] using hne
  simp only [match_video_segments, hdur, hlib]
  rw [if_neg (not_le.mpr hhop), if_neg (not_le.mpr hwin),
    if_neg (not_lt.mpr hdw), if_neg hempty]
  constructor
  · intro hc
    rw [if_pos hc]
  · intro hc
    rw [if_neg (by simp [hc])]
    simp [scanStitched]

/-- Counterexample to claim C2 as stated: with `window_size = 0` (and a
positive hop size) the command fails with the `Config` error kind — the
message "窗口大小必须大于0" at src/commands/video.rs line 436 — not with
`InvalidArgument`. -/
theorem c2_counterexample :
    (match_video_segments
        { project_id := "p", min_confidence := 3 / 5, window_size := 0,
          hop_size := 1, min_duration := 5, max_gap_duration := 10,
          audio_duration := .ok 60, library := .ok [("a", "Song A", [])],
          cancel_seen := fun _ => false, extract_window_fp := fun _ => none,
          cancel_at_end := false } []).1
      = .error .Config ∧
    (match_video_segments
        { project_id := "p", min_confidence := 3 / 5, window_size := 0,
          hop_size := 1, min_duration := 5, max_gap_duration := 10,
          audio_duration := .ok 60, library := .ok [("a", "Song A", [])],
          cancel_seen := fun _ => false, extract_window_fp := fun _ => none,
          cancel_at_end := false } []).1
      ≠ .error .InvalidArgument := by
  have h : (match_video_segments
      { project_id := "p", min_confidence := 3 / 5, window_size := 0,
        hop_size := 1, min_duration := 5, max_gap_duration := 10,
        audio_duration := .ok 60, library := .ok [("a", "Song A", [])],
        cancel_seen := fun _ => false, extract_window_fp := fun _ => none,
        cancel_at_end := false } []).1 = .error .Config := by
    simp only [match_video_segments]
    rw [if_neg (by norm_num), if_pos (by norm_num)]
  refine ⟨h, ?_⟩
  rw [h]
  simp

/-- Claim C2 as amended: a non-positive `hop_size` or `window_size` fails
with the `Config` error kind (the hop check runs first), while
`InvalidArgument` is the error kind exactly of the
`total_duration < window_size` failure, reached when both sizes are
positive and the duration probe succeeded. -/
theorem c2_amended_validation (env : MatchEnv) (db : List Segment) :
    (env.hop_size ≤ 0 ∨ env.window_size ≤ 0 →
      (match_video_segments env db).1 = .error .Config) ∧
    (0 < env.hop_size → 0 < env.window_size →
      ∀ d : ℚ, env.audio_duration = .ok d → d < env.window_size →
      (match_video_segments env db).1 = .error .InvalidArgument) := by
  constructor
  · intro h
    by_cases hhop : env.hop_size ≤ 0
    · simp only [match_video_segments]
      rw [if_pos hhop]
    · have hwin : env.window_size ≤ 0 := h.resolve_left hhop
      simp only [match_video_segments]
      rw [if_neg hhop, if_pos hwin]
  · intro hhop hwin d hdur hlt
    simp only [match_video_segments, hdur]
    rw [if_neg (not_le.mpr hhop), if_neg (not_le.mpr hwin), if_pos hlt]

/-- Witness for the amended C2: `window_size = 0` yields the `Config`
kind, and a 10-second duration against a 15-second window yields the
`InvalidArgument` kind. -/
theorem c2_amended_validation_witness :
    ((1 : ℚ) ≤ 0 ∨ (0 : ℚ) ≤ 0) ∧
    (match_video_segments
        { project_id := "p", min_confidence := 3 / 5, window_size := 0,
          hop_size := 1, min_duration := 5, max_gap_duration := 10,
          audio_duration := .ok 60, library := .ok [("a", "Song A", [])],
          cancel_seen := fun _ => false, extract_window_fp := fun _ => none,
          cancel_at_end := false } []).1 = .error .Config ∧
    (match_video_segments
        { project_id := "q", min_confidence := 3 / 5, window_size := 15,
          hop_size := 5, min_duration := 5, max_gap_duration := 10,
          audio_duration := .ok 10, library := .ok [("a", "Song A", [])],
          cancel_seen := fun _ => false, extract_window_fp := fun _ => none,
          cancel_at_end := false } []).1 = .error .InvalidArgument :=
  ⟨Or.inr (by norm_num),
    (c2_amended_validation _ []).1 (Or.inr (by norm_num)),
    (c2_amended_validation _ []).2 (by norm_num) (by norm_num) 10 rfl
      (by norm_num)⟩

/-- Claim C6: the cancellation flag is only ever set, never cleared,
during a run (it is reset only when a new task starts), so it is monotone
over the scan; if it was set at any instant `t` of the scan it is still
set at the post-scan check, and `match_video_segments` then fails with
`Cancelled` — a cancellation is never swallowed into an `Ok` result. -/
theorem c6_cancellation_not_swallowed (env : MatchEnv) (db : List Segment)
    (flag : ℕ → Bool)
    (hmono : ∀ i j : ℕ, i ≤ j → flag i = true → flag j = true)
    (t T : ℕ) (htT : t ≤ T) (hset : flag t = true)
    (hend : env.cancel_at_end = flag T)
    (hhop : 0 < env.hop_size) (hwin : 0 < env.window_size)
    (d : ℚ) (hdur : env.audio_duration = .ok d) (hdw : env.window_size ≤ d)
    (lib : List LibraryEntry) (hlib : env.library = .ok lib) (hne : lib ≠ []) :
    (match_video_segments env db).1 = .error .Cancelled ∧
    ∀ segs : List Segment, (match_video_segments env db).1 ≠ .ok segs := by
  have hc : env.cancel_at_end = true := by
    rw [hend]
    exact hmono t T htT hset
  have h := (match_video_segments_reach_scan env db hhop hwin d hdur hdw
    lib hlib hne).1 hc
  rw [h]
  exact ⟨rfl, by intro segs; simp⟩

/-- Witness for C6: a flag set from instant 0 onward makes the concrete
run below fail `Cancelled`. -/
theorem c6_cancellation_not_swallowed_witness :
    ((fun _ : ℕ => true) 0 = true) ∧
    (match_video_segments
        { project_id := "p", min_confidence := 3 / 5, window_size := 15,
          hop_size := 5, min_duration := 5, max_gap_duration := 10,
          audio_duration := .ok 60, library := .ok [("a", "Song A", [])],
          cancel_seen := fun _ => true, extract_window_fp := fun _ => none,
          cancel_at_end := true } []).1 = .error .Cancelled :=
  ⟨rfl,
    (c6_cancellation_not_swallowed _ [] (fun _ => true)
      (fun _ _ _ h => h) 0 0 le_rfl rfl rfl (by norm_num) (by norm_num)
      60 rfl (by norm_num) [("a", "Song A", [])] rfl (by simp)).1⟩

/-- Counterexample to claim C7 as stated: on this concrete run the scan is
cancelled, the command fails with `Cancelled`, yet the project's
previously persisted segment is gone — the rows end empty, not unchanged,
because `delete_segments_by_project` ran before the scan
(src/commands/video.rs line 476) and `batch_insert_segments` only after it
(line 654). -/
theorem c7_counterexample :
    (match_video_segments
          { project_id := "p", min_confidence := 3 / 5, window_size := 15,
            hop_size := 5, min_duration := 5, max_gap_duration := 10,
            audio_duration := .ok 60, library := .ok [("a", "Song A", [])],
            cancel_seen := fun _ => true, extract_window_fp := fun _ => none,
            cancel_at_end := true }
          [⟨"p", none, none, 0, 30, 1, .Detected⟩]).1
        = .error .Cancelled ∧
      (match_video_segments
          { project_id := "p", min_confidence := 3 / 5, window_size := 15,
            hop_size := 5, min_duration := 5, max_gap_duration := 10,
            audio_duration := .ok 60, library := .ok [("a", "Song A", [])],
            cancel_seen := fun _ => true, extract_window_fp := fun _ => none,
            cancel_at_end := true }
          [⟨"p", none, none, 0, 30, 1, .Detected⟩]).2
        = [] ∧
      ([(⟨"p", none, none, 0, 30, 1, .Detected⟩ : Segment)] : List Segment)
        ≠ [] := by
  have h := (match_video_segments_reach_scan
    { project_id := "p", min_confidence := 3 / 5, window_size := 15,
      hop_size := 5, min_duration := 5, max_gap_duration := 10,
      audio_duration := .ok 60, library := .ok [("a", "Song A", [])],
      cancel_seen := fun _ => true, extract_window_fp := fun _ => none,
      cancel_at_end := true }
    [⟨"p", none, none, 0, 30, 1, .Detected⟩]
    (by norm_num) (by norm_num) 60 rfl (by norm_num)
    [("a", "Song A", [])] rfl (by simp)).1 rfl
  rw [h]
  exact ⟨rfl, rfl, by simp⟩

/-- Claim C7 as amended: clearing the prior segments and inserting the new
ones are two separate database actions, the clear before the scan and the
insert after it, not one atomic unit.  Once the run reaches the scan the
prior rows are deleted in every outcome: a cancelled run leaves the
project's rows empty (prior segments lost, nothing inserted), and a
successful run leaves exactly the freshly stitched segments. -/
theorem c7_amended_clear_then_insert (env : MatchEnv) (db : List Segment)
    (hhop : 0 < env.hop_size) (hwin : 0 < env.window_size)
    (d : ℚ) (hdur : env.audio_duration = .ok d) (hdw : env.window_size ≤ d)
    (lib : List LibraryEntry) (hlib : env.library = .ok lib) (hne : lib ≠ []) :
    (env.cancel_at_end = true →
      (match_video_segments env db).1 = .error .Cancelled ∧
      (match_video_segments env db).2 = []) ∧
    (env.cancel_at_end = false →
      (match_video_segments env db).2 = scanStitched env d lib) := by
  have h := match_video_segments_reach_scan env db hhop hwin d hdur hdw
    lib hlib hne
  constructor
  · intro hc
    rw [h.1 hc]
    exact ⟨rfl, rfl⟩
  · intro hc
    rw [h.2 hc]

/-- Witness for the amended C7: the cancelled concrete run above ends with
the project's rows empty. -/
theorem c7_amended_clear_then_insert_witness :
    (match_video_segments
        { project_id := "p", min_confidence := 3 / 5, window_size := 15,
          hop_size := 5, min_duration := 5, max_gap_duration := 10,
          audio_duration := .ok 60, library := .ok [("a", "Song A", [])],
          cancel_seen := fun _ => true, extract_window_fp := fun _ => none,
          cancel_at_end := true }
        [⟨"p", none, none, 0, 30, 1, .Detected⟩]).2 = [] :=
  ((c7_amended_clear_then_insert _ [⟨"p", none, none, 0, 30, 1, .Detected⟩]
    (by norm_num) (by norm_num) 60 rfl (by norm_num)
    [("a", "Song A", [])] rfl (by simp)).1 rfl).2

/-! ## The detection GPU gate (claim C8) -/

/-- If every select outcome up to tick `k` is a sleep tick and the
cancellation flag is set by tick `k`, the wait loop returns
`cancelledWhileQueued`. -/
theorem detectGateWaitLoop_cancels (cancel_flag : ℕ → Bool) :
    ∀ (k c : ℕ) (sched : List SelectOutcome),
      (∀ i : ℕ, i ≤ k → sched.getD i .acquireReady = .sleepElapsed) →
      k < sched.length →
      cancel_flag (c + k) = true →
      detectGateWaitLoop cancel_flag c sched = .cancelledWhileQueued := by
  intro k
  induction k with
  | zero =>
    intro c sched hall hlen hset
    match sched, hlen with
    | e :: rest, _ =>
      have he : e = .sleepElapsed := hall 0 le_rfl
      subst he
      rw [detectGateWaitLoop]
      rw [if_pos (by simpa using hset)]
  | succ k ih =>
    intro c sched hall hlen hset
    match sched, hlen with
    | e :: rest, hlen =>
      have he : e = .sleepElapsed := hall 0 (Nat.zero_le _)
      subst he
      rw [detectGateWaitLoop]
      by_cases hc : cancel_flag c = true
      · rw [if_pos hc]
      · rw [if_neg hc]
        apply ih (c + 1) rest
        · intro i hi
          exact hall (i + 1) (Nat.succ_le_succ hi)
        · simpa using Nat.lt_of_succ_lt_succ (by simpa using hlen)
        · have : c + 1 + k = c + (k + 1) := by omega
          rw [this]
          exact hset

/-- Conversely, a `cancelledWhileQueued` exit happens only from a sleep
tick reached without any acquire-arm completion: no `acquireReady`
outcome was consumed, so the permit was never taken. -/
theorem detectGateWaitLoop_cancel_no_acquire (cancel_flag : ℕ → Bool) :
    ∀ (sched : List SelectOutcome) (c : ℕ),
      detectGateWaitLoop cancel_flag c sched = .cancelledWhileQueued →
      ∃ k : ℕ, k < sched.length ∧
        (∀ i : ℕ, i ≤ k → sched.getD i .acquireReady = .sleepElapsed) ∧
        cancel_flag (c + k) = true := by
  intro sched
  induction sched with
  | nil =>
    intro c h
    rw [detectGateWaitLoop] at h
    exact absurd h (by simp)
  | cons e rest ih =>
    intro c h
    match e with
    | .acquireReady =>
      rw [detectGateWaitLoop] at h
      exact absurd h (by simp)
    | .sleepElapsed =>
      rw [detectGateWaitLoop] at h
      by_cases hc : cancel_flag c = true
      · exact ⟨0, by simp, fun i hi => by interval_cases i; rfl, by simpa using hc⟩
      · rw [if_neg hc] at h
        obtain ⟨k, hk, hall, hset⟩ := ih (c + 1) h
        refine ⟨k + 1, by simpa using Nat.succ_lt_succ hk, ?_, ?_⟩
        · intro i hi
          match i with
          | 0 => rfl
          | i + 1 => exact hall i (Nat.le_of_succ_le_succ hi)
        · have : c + (k + 1) = c + 1 + k := by omega
          rw [this]
          exact hset

/-- Claim C8: when the immediate `try_acquire` fails, exactly one
`detection-queued` notification is emitted; the wait loop polls the
cancellation flag on a 200 ms sleep tick; if the flag is set while every
select outcome so far is a sleep tick (the task is still queued), the call
returns `Cancelled`; and a cancelled exit consumed no acquire-arm
completion — the permit is never taken by that call. -/
theorem c8_detection_gate_queue (cancel_flag : ℕ → Bool)
    (sched : List SelectOutcome) :
    (detect_persons_gate true cancel_flag sched).1 = ["detection-queued"] ∧
    detectPollIntervalMs = 200 ∧
    (∀ k : ℕ,
      (∀ i : ℕ, i ≤ k → sched.getD i .acquireReady = .sleepElapsed) →
      k < sched.length →
      cancel_flag k = true →
      (detect_persons_gate true cancel_flag sched).2 = .cancelledWhileQueued) ∧
    ((detect_persons_gate true cancel_flag sched).2 = .cancelledWhileQueued →
      ∃ k : ℕ, k < sched.length ∧
        (∀ i : ℕ, i ≤ k → sched.getD i .acquireReady = .sleepElapsed) ∧
        cancel_flag k = true) := by
  refine ⟨rfl, rfl, ?_, ?_⟩
  · intro k hall hlen hset
    simp only [detect_persons_gate, if_pos]
    exact detectGateWaitLoop_cancels cancel_flag k 0 sched hall hlen
      (by simpa using hset)
  · intro h
    simp only [detect_persons_gate, if_pos] at h
    obtain ⟨k, hk, hall, hset⟩ :=
      detectGateWaitLoop_cancel_no_acquire cancel_flag sched 0 h
    exact ⟨k, hk, hall, by simpa using hset⟩

/-- Witness for C8: a busy gate, a flag already set, and a first sleep
tick produce the queued notification and a cancelled exit. -/
theorem c8_detection_gate_queue_witness :
    (detect_persons_gate true (fun _ => true) [.sleepElapsed]).1
        = ["detection-queued"] ∧
      (detect_persons_gate true (fun _ => true) [.sleepElapsed]).2
        = .cancelledWhileQueued :=
  ⟨(c8_detection_gate_queue (fun _ => true) [.sleepElapsed]).1,
    (c8_detection_gate_queue (fun _ => true) [.sleepElapsed]).2.2.1 0
      (fun i hi => by interval_cases i; rfl) (by simp) rfl⟩

/-! ## The whole-file match command (claim C10) -/

/-- Claim C10: with a successful query-fingerprint extraction and library
read, `match_fingerprint` returns `Ok`: an empty library yields `Ok []`
(not `NotFound`), and otherwise `Ok` of a list in which every entry's
confidence is at least the minimum confidence (`0.6` when the caller
passed none) and which is sorted in non-increasing confidence order. -/
theorem c10_match_fingerprint_ok (fp : List Byte)
    (lib : List LibraryEntry) (min_confidence : Option ℚ) :
    match_fingerprint (.ok fp) (.ok ([] : List LibraryEntry)) min_confidence
        = .ok [] ∧
    ∃ rs : List MatchResult,
      match_fingerprint (.ok fp) (.ok lib) min_confidence = .ok rs ∧
      (∀ r ∈ rs, min_confidence.getD (3 / 5) ≤ r.confidence) ∧
      rs.Pairwise (fun a b => b.confidence ≤ a.confidence) := by
  constructor
  · simp [match_fingerprint]
  · by_cases hemp : lib.isEmpty
    · refine ⟨[], ?_, by simp, by simp⟩
      simp [match_fingerprint, hemp]
    · set le : MatchResult → MatchResult → Bool :=
        fun a b => decide (b.confidence ≤ a.confidence) with hle
      set results := lib.filterMap (fun e =>
        let confidence := compare_fingerprints fp e.2.2
        if min_confidence.getD (3 / 5) ≤ confidence then
          some (MatchResult.mk e.1 e.2.1 confidence 0 0)
        else none) with hres
      refine ⟨results.mergeSort le, ?_, ?_, ?_⟩
      · simp only [match_fingerprint, hemp, if_false, Bool.false_eq_true]
      · intro r hr
        rw [List.mem_mergeSort] at hr
        rw [hres] at hr
        obtain ⟨e, _, heq⟩ := List.mem_filterMap.mp hr
        by_cases hc : min_confidence.getD (3 / 5) ≤ compare_fingerprints fp e.2.2
        · simp only [if_pos hc] at heq
          obtain rfl := Option.some.inj heq
          exact hc
        · simp [if_neg hc] at heq
      · have hs := @List.sorted_mergeSort MatchResult le
          (fun a b c hab hbc => by
            rw [hle] at hab hbc ⊢
            simp only [decide_eq_true_eq] at hab hbc ⊢
            exact le_trans hbc hab)
          (fun a b => by
            rw [hle]
            simp only [Bool.or_eq_true, decide_eq_true_eq]
            exact le_total b.confidence a.confidence)
          results
        refine hs.imp ?_
        intro a b hab
        rw [hle] at hab
        simpa using hab

/-- Witness for C10 at a concrete query and one-entry library. -/
theorem c10_match_fingerprint_ok_witness :
    match_fingerprint (.ok ([] : List Byte)) (.ok ([] : List LibraryEntry))
        none = .ok [] ∧
    ∃ rs : List MatchResult,
      match_fingerprint (.ok ([] : List Byte))
          (.ok [("a", "Song A", [])]) none = .ok rs ∧
      (∀ r ∈ rs, (none : Option ℚ).getD (3 / 5) ≤ r.confidence) ∧
      rs.Pairwise (fun a b => b.confidence ≤ a.confidence) :=
  c10_match_fingerprint_ok [] [("a", "Song A", [])] none

end Musiccut
